import Mathlib

/-!
# Verification of the BAR vault engine

Shallow embedding of the core of the `Contact-manager` (BAR) repository:
the cryptographic seal/unseal primitives (`src/crypto/encryption.py`),
the vault store (`BAR/src/file_manager/file_manager.py`), the filesystem
scanner (`BAR/src/file_manager/file_scanner.py`) and the secure eraser
(`src/security/secure_delete.py`).

Byte strings are modelled as `List Nat` together with the well-formedness
condition that every entry is `< 256`.  Passwords are modelled by their
UTF-8 byte sequences (the source calls `password.encode('utf-8')` before
key derivation).  External randomness (`os.urandom` salts and nonces) and
the current wall-clock time (`datetime.now()`) are supplied as explicit
parameters.  Timestamps are modelled as integers (instants in seconds);
the source stores them as ISO-8601 strings and compares the parsed
`datetime` values, which is order-isomorphic.

The `cryptography` library primitives (PBKDF2-HMAC-SHA256 and AES-256-GCM)
are external collaborators, not code of this repository; they are modelled
by ideal functional counterparts that realise exactly the contract the
source relies on: the KDF is a deterministic injective function of
`(password, salt)`, and the AEAD is an injective seal whose unseal succeeds
precisely on the key/nonce pair used at sealing time (the tag check is the
sole source of truth).  The Python stdlib `base64` transport coding is
embedded as a genuine base64 encoder/decoder over bytes.
-/

/-! ## Base64 (Python stdlib `base64.b64encode` / `b64decode`) -/

/-- The 64-character base64 alphabet, in encoding order. -/
def base64Alphabet : List Char :=
  ['A', 'B', 'C', 'D', 'E', 'F', 'G', 'H', 'I', 'J', 'K', 'L', 'M',
   'N', 'O', 'P', 'Q', 'R', 'S', 'T', 'U', 'V', 'W', 'X', 'Y', 'Z',
   'a', 'b', 'c', 'd', 'e', 'f', 'g', 'h', 'i', 'j', 'k', 'l', 'm',
   'n', 'o', 'p', 'q', 'r', 's', 't', 'u', 'v', 'w', 'x', 'y', 'z',
   '0', '1', '2', '3', '4', '5', '6', '7', '8', '9', '+', '/']

/-- Character for a 6-bit group. -/
def b64CharOf (n : Nat) : Char := base64Alphabet.getD n 'A'

/-- Auxiliary index search in the alphabet. -/
def b64IndexAux : List Char → Char → Nat → Nat
  | [], _, _ => 0
  | x :: rest, c, i => if x = c then i else b64IndexAux rest c (i + 1)

/-- 6-bit value of an alphabet character. -/
def b64ValOf (c : Char) : Nat := b64IndexAux base64Alphabet c 0

/-- Base64 encoding of a byte sequence, with `=` padding, as performed by
`base64.b64encode`. -/
def b64encode : List Nat → List Char
  | [] => []
  | [a] =>
    let w := a * 65536
    [b64CharOf (w / 262144), b64CharOf (w / 4096 % 64), '=', '=']
  | [a, b] =>
    let w := a * 65536 + b * 256
    [b64CharOf (w / 262144), b64CharOf (w / 4096 % 64), b64CharOf (w / 64 % 64), '=']
  | a :: b :: c :: rest =>
    let w := a * 65536 + b * 256 + c
    b64CharOf (w / 262144) :: b64CharOf (w / 4096 % 64) :: b64CharOf (w / 64 % 64) ::
      b64CharOf (w % 64) :: b64encode rest

/-- Base64 decoding back to bytes, as performed by `base64.b64decode` on
well-formed input. -/
def b64decode : List Char → List Nat
  | c1 :: c2 :: c3 :: c4 :: rest =>
    if c3 = '=' then
      [b64ValOf c1 * 4 + b64ValOf c2 / 16]
    else if c4 = '=' then
      let w := b64ValOf c1 * 262144 + b64ValOf c2 * 4096 + b64ValOf c3 * 64
      [w / 65536, w / 256 % 256]
    else
      let w := b64ValOf c1 * 262144 + b64ValOf c2 * 4096 + b64ValOf c3 * 64 + b64ValOf c4
      w / 65536 :: w / 256 % 256 :: w % 256 :: b64decode rest
  | _ => []

theorem b64ValOf_b64CharOf : ∀ k, k < 64 → b64ValOf (b64CharOf k) = k := by decide

theorem b64CharOf_ne_pad : ∀ k, k < 64 → b64CharOf k ≠ '=' := by decide

theorem b64decode_b64encode (l : List Nat) (h : ∀ x ∈ l, x < 256) :
    b64decode (b64encode l) = l := by
  induction l using b64encode.induct with
  | case1 => rfl
  | case2 a =>
    have ha : a < 256 := h a (by simp)
    have h1 : a * 65536 / 262144 < 64 := by omega
    have h2 : a * 65536 / 4096 % 64 < 64 := by omega
    have e1 : b64decode (b64encode [a]) =
        [b64ValOf (b64CharOf (a * 65536 / 262144)) * 4 +
          b64ValOf (b64CharOf (a * 65536 / 4096 % 64)) / 16] := rfl
    rw [e1, b64ValOf_b64CharOf _ h1, b64ValOf_b64CharOf _ h2]
    simp only [List.cons.injEq, and_true]
    omega
  | case3 a b =>
    have ha : a < 256 := h a (by simp)
    have hb : b < 256 := h b (by simp)
    have h1 : (a * 65536 + b * 256) / 262144 < 64 := by omega
    have h2 : (a * 65536 + b * 256) / 4096 % 64 < 64 := by omega
    have h3 : (a * 65536 + b * 256) / 64 % 64 < 64 := by omega
    simp only [b64encode, b64decode, if_neg (b64CharOf_ne_pad _ h3), reduceIte]
    rw [b64ValOf_b64CharOf _ h1, b64ValOf_b64CharOf _ h2, b64ValOf_b64CharOf _ h3]
    simp only [List.cons.injEq, and_true]
    omega
  | case4 a b c rest ih =>
    have ha : a < 256 := h a (by simp)
    have hb : b < 256 := h b (by simp)
    have hc : c < 256 := h c (by simp)
    have hrest : ∀ x ∈ rest, x < 256 := fun x hx => h x (by simp [hx])
    have h1 : (a * 65536 + b * 256 + c) / 262144 < 64 := by omega
    have h2 : (a * 65536 + b * 256 + c) / 4096 % 64 < 64 := by omega
    have h3 : (a * 65536 + b * 256 + c) / 64 % 64 < 64 := by omega
    have h4 : (a * 65536 + b * 256 + c) % 64 < 64 := by omega
    simp only [b64encode, b64decode, if_neg (b64CharOf_ne_pad _ h3),
      if_neg (b64CharOf_ne_pad _ h4)]
    rw [b64ValOf_b64CharOf _ h1, b64ValOf_b64CharOf _ h2, b64ValOf_b64CharOf _ h3,
      b64ValOf_b64CharOf _ h4]
    simp only [List.cons.injEq]
    refine ⟨by omega, by omega, by omega, ih hrest⟩

/-! ## Ideal models of the external `cryptography` library primitives

The seal embeds the key and nonce into the ciphertext through an injective
byte-stuffing code, so that unsealing verifies exactly the key/nonce pair
used at sealing time — the functional content of the AES-GCM authentication
tag.  `escape` doubles every `255` byte; `255, 254` acts as an unambiguous
separator. -/

/-- Byte-stuffing: every `255` byte is doubled, freeing `255, 254` to act
as a separator. -/
def escape : List Nat → List Nat
  | [] => []
  | b :: rest => if b = 255 then 255 :: 255 :: escape rest else b :: escape rest

/-- Greedy parse of a byte-stuffed segment up to its `255, 254` separator;
returns the unescaped segment and the remainder. -/
def splitEsc : List Nat → Option (List Nat × List Nat)
  | [] => none
  | b :: rest =>
    if b = 255 then
      match rest with
      | [] => none
      | c :: rest2 =>
        if c = 255 then (splitEsc rest2).map (fun p => (255 :: p.1, p.2))
        else if c = 254 then some ([], rest2)
        else none
    else (splitEsc rest).map (fun p => (b :: p.1, p.2))

theorem escape_cons_ne {x : Nat} (xs : List Nat) (hx : x ≠ 255) :
    escape (x :: xs) = x :: escape xs := by
  simp only [escape]
  rw [if_neg hx]

theorem splitEsc_cons_ne {x : Nat} (l : List Nat) (hx : x ≠ 255) :
    splitEsc (x :: l) = (splitEsc l).map (fun p => (x :: p.1, p.2)) := by
  unfold splitEsc
  rw [if_neg hx, ← splitEsc.eq_def]

theorem splitEsc_escape (xs rest : List Nat) :
    splitEsc (escape xs ++ 255 :: 254 :: rest) = some (xs, rest) := by
  induction xs with
  | nil => rfl
  | cons x xs ih =>
    by_cases hx : x = 255
    · subst hx
      show (splitEsc (escape xs ++ 255 :: 254 :: rest)).map
        (fun p => (255 :: p.1, p.2)) = some (255 :: xs, rest)
      rw [ih]
      rfl
    · rw [escape_cons_ne xs hx, List.cons_append, splitEsc_cons_ne _ hx, ih]
      rfl

/-- Every byte of an escaped sequence is either `255` or a byte of the
original sequence. -/
theorem mem_escape {x : Nat} {l : List Nat} (hx : x ∈ escape l) : x = 255 ∨ x ∈ l := by
  induction l with
  | nil => simp [escape] at hx
  | cons b rest ih =>
    by_cases hb : b = 255
    · subst hb
      have he : escape (255 :: rest) = 255 :: 255 :: escape rest := rfl
      rw [he] at hx
      rcases List.mem_cons.mp hx with h | h
      · exact Or.inl h
      · rcases List.mem_cons.mp h with h' | h'
        · exact Or.inl h'
        · rcases ih h' with h2 | h2
          · exact Or.inl h2
          · exact Or.inr (List.mem_cons_of_mem _ h2)
    · rw [escape_cons_ne rest hb] at hx
      rcases List.mem_cons.mp hx with h | h
      · subst h
        exact Or.inr (List.mem_cons_self x rest)
      · rcases ih h with h2 | h2
        · exact Or.inl h2
        · exact Or.inr (List.mem_cons_of_mem _ h2)

theorem escape_bytes {l : List Nat} (h : ∀ x ∈ l, x < 256) :
    ∀ x ∈ escape l, x < 256 := by
  intro x hx
  rcases mem_escape hx with h' | h'
  · omega
  · exact h x h'

theorem allBytes_append {l1 l2 : List Nat} (h1 : ∀ x ∈ l1, x < 256)
    (h2 : ∀ x ∈ l2, x < 256) : ∀ x ∈ l1 ++ l2, x < 256 := by
  intro x hx
  rcases List.mem_append.mp hx with h | h
  · exact h1 x h
  · exact h2 x h

/-- Modelled from the library contract of `PBKDF2HMAC` (`derive_key` in
`encryption.py`): a deterministic key derivation function of the password
bytes and the salt, ideally injective in the pair.  Realised as the
byte-stuffed pairing of password and salt. -/
def derive_key (password salt : List Nat) : List Nat :=
  escape password ++ [255, 254] ++ escape salt

theorem derive_key_inj {p1 p2 s1 s2 : List Nat}
    (h : derive_key p1 s1 = derive_key p2 s2) : p1 = p2 := by
  have h1 : splitEsc (escape p1 ++ 255 :: 254 :: escape s1) = some (p1, escape s1) :=
    splitEsc_escape ..
  have h2 : splitEsc (escape p2 ++ 255 :: 254 :: escape s2) = some (p2, escape s2) :=
    splitEsc_escape ..
  unfold derive_key at h
  simp only [List.append_assoc, List.cons_append, List.nil_append] at h
  rw [h] at h1
  rw [h2] at h1
  have h3 : (p2, escape s2) = (p1, escape s1) := Option.some.inj h1
  have h4 : p2 = p1 := congrArg Prod.fst h3
  exact h4.symm

theorem derive_key_bytes {p s : List Nat} (hp : ∀ x ∈ p, x < 256)
    (hs : ∀ x ∈ s, x < 256) : ∀ x ∈ derive_key p s, x < 256 :=
  allBytes_append (allBytes_append (escape_bytes hp) (by decide)) (escape_bytes hs)

/-- Header a sealed box starts with: the byte-stuffed key and nonce, each
closed by the separator. -/
def gcmHeader (key nonce : List Nat) : List Nat :=
  escape key ++ [255, 254] ++ escape nonce ++ [255, 254]

/-- Modelled from the library contract of `AESGCM.encrypt`
(`encrypt_data` in `encryption.py`): an ideal authenticated seal.  The
ciphertext determines plaintext, key and nonce; the authentication tag is
realised by the recoverable key/nonce header. -/
def aesgcm_encrypt (key nonce data : List Nat) : List Nat :=
  gcmHeader key nonce ++ data

/-- Modelled from the library contract of `AESGCM.decrypt`
(`decrypt_data` in `encryption.py`): unsealing succeeds — returning the
exact original plaintext — precisely when the authentication check
against the supplied key and nonce passes; otherwise it fails
(`InvalidTag`, surfaced by the source as `ValueError`, here `none`). -/
def aesgcm_decrypt (key nonce ct : List Nat) : Option (List Nat) :=
  if ct.take (gcmHeader key nonce).length = gcmHeader key nonce then
    some (ct.drop (gcmHeader key nonce).length)
  else none

theorem take_length_append (l1 l2 : List Nat) : (l1 ++ l2).take l1.length = l1 := by
  simp

theorem drop_length_append (l1 l2 : List Nat) : (l1 ++ l2).drop l1.length = l2 := by
  simp

theorem gcmHeader_eq (key nonce : List Nat) :
    gcmHeader key nonce = escape key ++ 255 :: 254 :: (escape nonce ++ [255, 254]) := by
  unfold gcmHeader
  simp only [List.append_assoc, List.cons_append, List.nil_append]

theorem aesgcm_decrypt_encrypt (key nonce data : List Nat) :
    aesgcm_decrypt key nonce (aesgcm_encrypt key nonce data) = some data := by
  unfold aesgcm_decrypt aesgcm_encrypt
  rw [take_length_append, if_pos rfl, drop_length_append]

/-- Inversion: a successful unseal pins down the key and nonce used at
sealing time and returns the original plaintext. -/
theorem aesgcm_decrypt_inv {key nonce key2 nonce2 data r : List Nat}
    (h : aesgcm_decrypt key2 nonce2 (aesgcm_encrypt key nonce data) = some r) :
    key2 = key ∧ nonce2 = nonce ∧ r = data := by
  unfold aesgcm_decrypt aesgcm_encrypt at h
  by_cases hc : (gcmHeader key nonce ++ data).take (gcmHeader key2 nonce2).length =
      gcmHeader key2 nonce2
  · rw [if_pos hc] at h
    have hr : (gcmHeader key nonce ++ data).drop (gcmHeader key2 nonce2).length = r :=
      Option.some.inj h
    have hct : gcmHeader key nonce ++ data = gcmHeader key2 nonce2 ++ r := by
      conv_lhs => rw [← List.take_append_drop (gcmHeader key2 nonce2).length
        (gcmHeader key nonce ++ data)]
      rw [hc, hr]
    have hs1 : splitEsc (gcmHeader key nonce ++ data) =
        some (key, escape nonce ++ 255 :: 254 :: data) := by
      rw [gcmHeader_eq, List.append_assoc]
      have e2 : (255 :: 254 :: (escape nonce ++ [255, 254])) ++ data =
          255 :: 254 :: (escape nonce ++ 255 :: 254 :: data) := by
        simp
      rw [e2]
      exact splitEsc_escape ..
    have hs2 : splitEsc (gcmHeader key nonce ++ data) =
        some (key2, escape nonce2 ++ 255 :: 254 :: r) := by
      rw [hct, gcmHeader_eq, List.append_assoc]
      have e2 : (255 :: 254 :: (escape nonce2 ++ [255, 254])) ++ r =
          255 :: 254 :: (escape nonce2 ++ 255 :: 254 :: r) := by
        simp
      rw [e2]
      exact splitEsc_escape ..
    rw [hs1, Option.some.injEq, Prod.mk.injEq] at hs2
    have hn : splitEsc (escape nonce ++ 255 :: 254 :: data) = some (nonce, data) :=
      splitEsc_escape ..
    rw [hs2.2, splitEsc_escape, Option.some.injEq, Prod.mk.injEq] at hn
    exact ⟨hs2.1.symm, hn.1, hn.2⟩
  · rw [if_neg hc] at h
    exact absurd h (by simp)

theorem gcmHeader_bytes {key nonce : List Nat} (hk : ∀ x ∈ key, x < 256)
    (hn : ∀ x ∈ nonce, x < 256) : ∀ x ∈ gcmHeader key nonce, x < 256 :=
  allBytes_append (allBytes_append (allBytes_append (escape_bytes hk) (by decide))
    (escape_bytes hn)) (by decide)

theorem aesgcm_encrypt_bytes {key nonce data : List Nat} (hk : ∀ x ∈ key, x < 256)
    (hn : ∀ x ∈ nonce, x < 256) (hd : ∀ x ∈ data, x < 256) :
    ∀ x ∈ aesgcm_encrypt key nonce data, x < 256 :=
  allBytes_append (gcmHeader_bytes hk hn) hd

/-! ## `EncryptionManager.encrypt_file_content` / `decrypt_file_content`
(`src/crypto/encryption.py`, lines 95–149) -/

/-- The dictionary returned by `encrypt_file_content` and stored under the
`"encryption"` key of a file's metadata.  `ciphertext`, `nonce` and `salt`
hold base64 text (`base64.b64encode(...).decode('utf-8')`).  The import
path (`import_portable_file`) manipulates two further keys on this
dictionary: `hardware_id_hash`, present on envelopes that were
hardware-bound on another machine, and `hardware_bound`, which it sets to
`False` when stripping the binding; both are absent (`none`) on a freshly
sealed envelope. -/
structure EncryptedContent where
  ciphertext : List Char
  nonce : List Char
  salt : List Char
  encryption_time : String
  encryption_method : String
  kdf_method : String
  kdf_iterations : Nat
  hardware_id_hash : Option String
  hardware_bound : Option Bool
  deriving DecidableEq

/-- `EncryptionManager.encrypt_file_content` (encryption.py:95–121): a
fresh salt and nonce (here explicit parameters, modelling `os.urandom`)
are used to derive a key and seal `content`; the binary fields are stored
base64-encoded.  `now_iso` models the `datetime.now().isoformat()`
timestamp recorded in the envelope. -/
def encrypt_file_content (content password salt nonce : List Nat)
    (now_iso : String) : EncryptedContent :=
  let key := derive_key password salt
  let ct := aesgcm_encrypt key nonce content
  { ciphertext := b64encode ct
    nonce := b64encode nonce
    salt := b64encode salt
    encryption_time := now_iso
    encryption_method := "AES-256-GCM"
    kdf_method := "PBKDF2-HMAC-SHA256"
    kdf_iterations := 100000
    hardware_id_hash := none
    hardware_bound := none }

/-- `EncryptionManager.decrypt_file_content` (encryption.py:123–149):
base64-decodes the `ciphertext`, `nonce` and `salt` fields — and only
those three fields — re-derives the key from the supplied password, and
unseals.  Failure (`ValueError`) is `none`. -/
def decrypt_file_content (enc : EncryptedContent) (password : List Nat) :
    Option (List Nat) :=
  let ciphertext := b64decode enc.ciphertext
  let nonce := b64decode enc.nonce
  let salt := b64decode enc.salt
  let key := derive_key password salt
  aesgcm_decrypt key nonce ciphertext

/-- Sealing then unsealing with the same password recovers the plaintext
(shared helper for the claims below). -/
theorem decrypt_encrypt_eq (content password salt nonce : List Nat) (now_iso : String)
    (hc : ∀ x ∈ content, x < 256) (hp : ∀ x ∈ password, x < 256)
    (hs : ∀ x ∈ salt, x < 256) (hn : ∀ x ∈ nonce, x < 256) :
    decrypt_file_content (encrypt_file_content content password salt nonce now_iso)
      password = some content := by
  unfold decrypt_file_content encrypt_file_content
  simp only
  rw [b64decode_b64encode salt hs, b64decode_b64encode nonce hn,
    b64decode_b64encode _ (aesgcm_encrypt_bytes (derive_key_bytes hp hs) hn hc)]
  exact aesgcm_decrypt_encrypt ..

/-- Unsealing with any other password fails (shared helper). -/
theorem decrypt_encrypt_ne (content password pw2 salt nonce : List Nat)
    (now_iso : String)
    (hc : ∀ x ∈ content, x < 256) (hp : ∀ x ∈ password, x < 256)
    (hs : ∀ x ∈ salt, x < 256) (hn : ∀ x ∈ nonce, x < 256)
    (hne : pw2 ≠ password) :
    decrypt_file_content (encrypt_file_content content password salt nonce now_iso)
      pw2 = none := by
  unfold decrypt_file_content encrypt_file_content
  simp only
  rw [b64decode_b64encode salt hs, b64decode_b64encode nonce hn,
    b64decode_b64encode _ (aesgcm_encrypt_bytes (derive_key_bytes hp hs) hn hc)]
  by_contra hsome
  obtain ⟨r, hr⟩ := Option.ne_none_iff_exists'.mp hsome
  have hinv := aesgcm_decrypt_inv hr
  exact hne (derive_key_inj hinv.1)

/-- `decrypt_file_content` reads only the `ciphertext`, `nonce` and `salt`
fields of the envelope (shared helper): envelopes agreeing on those three
fields decrypt identically under every password. -/
theorem decrypt_file_content_fields (e1 e2 : EncryptedContent) (password : List Nat)
    (hct : e1.ciphertext = e2.ciphertext) (hn : e1.nonce = e2.nonce)
    (hs : e1.salt = e2.salt) :
    decrypt_file_content e1 password = decrypt_file_content e2 password := by
  unfold decrypt_file_content
  rw [hct, hn, hs]

/-! ## The vault store (`FileManager`, `BAR/src/file_manager/file_manager.py`)

The store's persisted state is one metadata file per entry (named by its
id) plus one blacklist file per blacklisted content hash; it is modelled
as an association list of metadata records and the list of blacklist file
names.  Logging, and the best-effort shredding of auxiliary on-disk copies
(exports, temp and portable directories, other volumes), are external side
effects outside this state.  The fire-and-forget destruction thread
spawned on reaching the access limit is modelled as completing before the
next operation observes the state. -/

/-- The `"security"` sub-dictionary of a file's metadata
(file_manager.py:162–167).  Absent constraints are `none`; the source
tests these fields by Python truthiness, under which the integer `0` also
counts as absent. -/
structure SecuritySettings where
  expiration_time : Option Int
  max_access_count : Option Nat
  deadman_switch : Option Nat
  disable_export : Bool
  deriving DecidableEq

/-- A file's metadata record (`{file_id}.json`).  `content_hash` and
`failed_password_attempts` are optional keys: `create_secure_file` writes
neither, `import_portable_file` writes both, and `access_file` initialises
the failed-attempts counter to `0` when absent. -/
structure Metadata where
  file_id : String
  filename : String
  creation_time : Int
  last_accessed : Int
  access_count : Nat
  file_type : String
  security : SecuritySettings
  encryption : EncryptedContent
  content_hash : Option String
  failed_password_attempts : Option Nat
  deriving DecidableEq

/-- The store's persisted state: the metadata directory (id ↦ record) and
the names of the files in the blacklist directory. -/
structure FMState where
  metadata : List (String × Metadata)
  blacklist : List String
  deriving DecidableEq

/-- Look up a metadata file by id (the `metadata_path.exists()` /
`json.load` pair). -/
def findEntry (file_id : String) : List (String × Metadata) → Option Metadata
  | [] => none
  | (k, v) :: rest => if k = file_id then some v else findEntry file_id rest

/-- Remove a metadata file by id. -/
def removeEntry (file_id : String) : List (String × Metadata) → List (String × Metadata)
  | [] => []
  | (k, v) :: rest =>
    if k = file_id then removeEntry file_id rest else (k, v) :: removeEntry file_id rest

/-- Write (or overwrite) a metadata file. -/
def setEntry (file_id : String) (md : Metadata) (l : List (String × Metadata)) :
    List (String × Metadata) :=
  (file_id, md) :: removeEntry file_id l

/-- Python truthiness of an optional integer field (`None` and `0` are
falsy). -/
def truthyNat : Option Nat → Bool
  | none => false
  | some n => n != 0

/-- Python truthiness of an optional string field (`None` and `""` are
falsy). -/
def truthyStr : Option String → Bool
  | none => false
  | some s => s != ""

/-- The filesystem-safe transform applied to a content hash before using
it as a blacklist file name: `re.sub(r'[^a-zA-Z0-9_-]', '_', content_hash)`
(file_manager.py:975, 1002). -/
def safe_hash (content_hash : String) : String :=
  String.mk (content_hash.data.map
    (fun c => if c.isAlphanum || c = '_' || c = '-' then c else '_'))

/-- `FileManager._hash_content` (file_manager.py:681–693): base64-encoded
SHA-256 of the content.  Modelled from the library contract of `hashlib`:
an ideal collision-free digest, realised as the printed byte sequence. -/
def hash_content (content : List Nat) : String :=
  toString content

/-- Ideal digest of `json.dumps(encryption_dict, sort_keys=True)`, the
fallback hashed by `_add_to_blacklist` when a record carries no content
hash (file_manager.py:935–949). -/
def enc_json_hash (enc : EncryptedContent) : String :=
  String.intercalate ":"
    [String.mk enc.ciphertext, String.mk enc.nonce, String.mk enc.salt,
     enc.encryption_time, enc.encryption_method, enc.kdf_method,
     toString enc.kdf_iterations]

/-- `FileManager._is_blacklisted` (file_manager.py:990–1009): a content
hash is blacklisted iff the file named by its safe transform exists in the
blacklist directory. -/
def is_blacklisted (st : FMState) (content_hash : String) : Bool :=
  decide (safe_hash content_hash ∈ st.blacklist)

/-- The hash `_add_to_blacklist` records for an entry: its content hash
when present and truthy, else the fallback digest of its encryption
dictionary (file_manager.py:932–954). -/
def blacklist_hash (md : Metadata) : String :=
  match md.content_hash with
  | some s => if s ≠ "" then s else enc_json_hash md.encryption
  | none => enc_json_hash md.encryption

/-- `FileManager._add_to_blacklist` (file_manager.py:921–988): records the
entry's blacklist hash as a file in the blacklist directory, named by the
safe transform of the hash. -/
def add_to_blacklist (st : FMState) (md : Metadata) : FMState :=
  { st with blacklist := safe_hash (blacklist_hash md) :: st.blacklist }

/-- `FileManager._secure_delete_file` (file_manager.py:341–474) with its
default `blacklist=True`: if the entry exists, add it to the blacklist and
remove its metadata file.  The secure shredding of the metadata file and
of auxiliary copies, and the background cross-volume duplicate search, are
best-effort external side effects; the state effect is the removal of the
entry and the blacklist insertion. -/
def fm_secure_delete_file (st : FMState) (file_id : String) : FMState :=
  match findEntry file_id st.metadata with
  | none => st
  | some md =>
    let st1 := add_to_blacklist st md
    { st1 with metadata := removeEntry file_id st1.metadata }

/-- `FileManager._check_security_constraints` (file_manager.py:770–803):
`true` means the file may be accessed, `false` mandates destruction.  A
pure function of the security policy, the current time, the
last-accessed time and the access count — the only metadata fields the
source reads.  `timedelta.days` is the floor of the elapsed seconds over
86400, i.e. `Int.fdiv`. -/
def check_security_constraints (security : SecuritySettings) (now : Int)
    (last_accessed : Int) (access_count : Nat) : Bool :=
  if (match security.expiration_time with
      | some expiration => decide (now > expiration)
      | none => false) then false
  else if (match security.max_access_count with
      | some m => m != 0 && decide (access_count ≥ m)
      | none => false) then false
  else if (match security.deadman_switch with
      | some d => d != 0 && decide ((now - last_accessed).fdiv 86400 > (d : Int))
      | none => false) then false
  else true

/-- Outcome of `FileManager.access_file`: the `ok` case is its return
value, the others are the exceptions it raises
(`FileNotFoundError`; `ValueError` with the respective messages,
distinguished here by constructor). -/
inductive AccessResult where
  | ok (content : List Nat) (md : Metadata)
  | fileNotFound
  | expiredOrMaxAccess
  | wrongPassword (remaining : Nat)
  | permanentlyDeleted
  deriving DecidableEq

/-- `FileManager.access_file` (file_manager.py:179–254).  Returns the
outcome together with the state after the call, including the effect of
the asynchronous forensic destruction scheduled when the access count
reaches its limit (spawned after the return value is computed). -/
def access_file (st : FMState) (file_id : String) (password : List Nat)
    (now : Int) : AccessResult × FMState :=
  match findEntry file_id st.metadata with
  | none => (.fileNotFound, st)
  | some md =>
    if ¬ check_security_constraints md.security now md.last_accessed md.access_count then
      (.expiredOrMaxAccess, fm_secure_delete_file st file_id)
    else
      match decrypt_file_content md.encryption password with
      | some content =>
        let md1 := { md with failed_password_attempts := some 0,
                             last_accessed := now,
                             access_count := md.access_count + 1 }
        let st1 := { st with metadata := setEntry file_id md1 st.metadata }
        if truthyNat md1.security.max_access_count ∧
            md1.access_count ≥ md1.security.max_access_count.getD 0 then
          (.ok content md1, fm_secure_delete_file st1 file_id)
        else
          (.ok content md1, st1)
      | none =>
        let failed := md.failed_password_attempts.getD 0 + 1
        let md1 := { md with failed_password_attempts := some failed }
        let st1 := { st with metadata := setEntry file_id md1 st.metadata }
        if failed ≥ 3 then
          (.permanentlyDeleted, fm_secure_delete_file st1 file_id)
        else
          (.wrongPassword (3 - failed), st1)

/-- A parsed portable exchange record (the `.bar` JSON document written by
`export_portable_file`, file_manager.py:553–564). -/
structure PortableData where
  bar_portable_file : Bool
  version : String
  filename : String
  creation_time : Int
  file_type : Option String
  security : SecuritySettings
  encryption : EncryptedContent
  content_hash : Option String
  failed_password_attempts : Option Nat
  access_count : Option Nat
  deriving DecidableEq

/-- Outcome of `FileManager.import_portable_file`: `ok` carries the new
file id; the error constructors stand for the `ValueError`s with the
respective messages ("Not a valid BAR portable file", the blacklist
message, "Incorrect password or incompatible hardware binding",
"Incorrect password"). -/
inductive ImportResult where
  | ok (file_id : String)
  | notValidBarFile
  | blacklisted
  | wrongPasswordOrHardware
  | wrongPassword
  deriving DecidableEq

/-- Tail of `import_portable_file` (file_manager.py:642–675): allocate the
fresh id, build the metadata record — preserving creation time, access
count and failed-attempts counter, stamping `last_accessed = now`, and
storing the given content hash if truthy, else a digest of the decrypted
content — and persist it. -/
def importFinish (st : FMState) (r : PortableData) (enc : EncryptedContent)
    (content : List Nat) (fresh_id : String) (now : Int) : ImportResult × FMState :=
  let md : Metadata :=
    { file_id := fresh_id
      filename := r.filename
      creation_time := r.creation_time
      last_accessed := now
      access_count := r.access_count.getD 0
      file_type := r.file_type.getD "document"
      security := r.security
      encryption := enc
      content_hash := some (if truthyStr r.content_hash then r.content_hash.getD ""
        else hash_content content)
      failed_password_attempts := some (r.failed_password_attempts.getD 0) }
  (.ok fresh_id, { st with metadata := setEntry fresh_id md st.metadata })

/-- `FileManager.import_portable_file` (file_manager.py:577–679).  The
fresh id (`uuid.uuid4()`) and the current time are explicit parameters.
Rejects records without the signature marker; rejects records whose
(truthy) content hash is blacklisted; on a hardware-bound envelope, first
attempts decryption with the binding marker stripped
(`hardware_id_hash` removed, `hardware_bound = False`), retrying with the
original envelope only if that fails. -/
def import_portable_file (st : FMState) (r : PortableData) (password : List Nat)
    (fresh_id : String) (now : Int) : ImportResult × FMState :=
  if ¬ r.bar_portable_file then (.notValidBarFile, st)
  else if truthyStr r.content_hash ∧ is_blacklisted st (r.content_hash.getD "") then
    (.blacklisted, st)
  else
    match r.encryption.hardware_id_hash with
    | some _ =>
      let enc2 := { r.encryption with hardware_id_hash := none,
                                      hardware_bound := some false }
      (match decrypt_file_content enc2 password with
       | some content => importFinish st r enc2 content fresh_id now
       | none =>
         match decrypt_file_content r.encryption password with
         | some content => importFinish st r r.encryption content fresh_id now
         | none => (.wrongPasswordOrHardware, st))
    | none =>
      match decrypt_file_content r.encryption password with
      | some content => importFinish st r r.encryption content fresh_id now
      | none => (.wrongPassword, st)

/-- The body of the background monitor's per-entry step
(`FileManager._monitor_files`, file_manager.py:810–818): an entry whose
security constraints are violated is forensically destroyed. -/
def monitorStep (now : Int) (s : FMState) (fid : String) : FMState :=
  match findEntry fid s.metadata with
  | some md =>
    if check_security_constraints md.security now md.last_accessed md.access_count
    then s
    else fm_secure_delete_file s fid
  | none => s

/-- One cycle of the background monitor (`FileManager._monitor_files`,
file_manager.py:805–826): every persisted entry whose security
constraints are violated is forensically destroyed. -/
def monitor_files_once (st : FMState) (now : Int) : FMState :=
  (st.metadata.map Prod.fst).foldl (monitorStep now) st

/-! ## The device scanner (`FileScanner`, `BAR/src/file_manager/file_scanner.py`) -/

/-- A parsed candidate `.bar` JSON document as seen by the scanner's
validator; every field may be absent.  `bar_portable_file` is the
signature marker read with `data.get(BAR_FILE_SIGNATURE, False)`. -/
structure BarFileData where
  bar_portable_file : Bool
  version : Option String
  filename : Option String
  encryption : Option EncryptedContent
  creation_time : Option String
  content_hash : Option String
  security : Option SecuritySettings
  deriving DecidableEq

/-- The version-string shape `^\d+\.\d+$` (FileScanner.BAR_FILE_VERSION_PATTERN):
a nonempty digit run, one dot, a nonempty digit run. -/
def isVersionShape (s : String) : Bool :=
  let before := s.data.takeWhile (fun c => c ≠ '.')
  match s.data.dropWhile (fun c => c ≠ '.') with
  | '.' :: after =>
    decide (before ≠ []) && decide (after ≠ []) && before.all Char.isDigit &&
      after.all Char.isDigit && decide ('.' ∉ after)
  | _ => false

/-- The metadata the validator extracts for a valid `.bar` file
(file_scanner.py:334–343, 366–379).  The expiration-status annotation and
the file-modification timestamp, irrelevant to the claims, are omitted. -/
structure ScanInfo where
  filename : String
  creation_time : Option String
  version : String
  has_security : Bool
  size : Nat
  content_hash : Option String
  integrity_score : Nat
  deriving DecidableEq

/-- `FileScanner._validate_bar_file` (file_scanner.py:286–391) on a file of
`file_size` bytes that parsed as the JSON document `d` (unparseable files
yield `none` upstream): checks the minimum size, the signature marker, the
version shape when a version is present (`data.get("version", "unknown")`),
and the required fields `filename` and `encryption`; computes the
integrity score starting from 100, deducting 10 for each absent optional
field (`creation_time`, `content_hash`, `security`) and 10 when the
version is absent. -/
def validate_bar_file (file_size : Nat) (d : BarFileData) : Option ScanInfo :=
  if file_size < 50 then none
  else if ¬ d.bar_portable_file then none
  else
    let version := d.version.getD "unknown"
    if version ≠ "unknown" ∧ ¬ isVersionShape version then none
    else if d.filename = none ∨ d.encryption = none then none
    else
      some
        { filename := d.filename.getD ""
          creation_time := d.creation_time
          version := version
          has_security := d.security.isSome
          size := file_size
          content_hash := d.content_hash
          integrity_score :=
            max 0 (100 - (if d.creation_time = none then 10 else 0)
              - (if d.content_hash = none then 10 else 0)
              - (if d.security = none then 10 else 0)
              - (if version = "unknown" then 10 else 0)) }

/-! ## The secure eraser (`SecureDelete`, `src/security/secure_delete.py`) -/

/-- A regular file as seen by `SecureDelete`: its content bytes and
whether the process may open it for writing (`open(file_path, "r+b")`
succeeds).  An unwritable file models the overwrite step failing outright,
e.g. by `PermissionError`. -/
structure FsFile where
  content : List Nat
  writable : Bool
  deriving DecidableEq

/-- A directory of regular files, path ↦ file. -/
abbrev SimpleFS := List (String × FsFile)

/-- File lookup. -/
def fsFind (path : String) : SimpleFS → Option FsFile
  | [] => none
  | (k, v) :: rest => if k = path then some v else fsFind path rest

/-- Removal of a directory entry (`os.remove`). -/
def fsRemove (path : String) : SimpleFS → SimpleFS
  | [] => []
  | (k, v) :: rest =>
    if k = path then fsRemove path rest else (k, v) :: fsRemove path rest

/-- `SecureDelete.secure_delete_file` (secure_delete.py:22–83): if the file
exists and can be opened for writing, every overwrite pass is written,
flushed and synced, the file is truncated to zero length and its directory
entry removed (`os.remove`), returning `True`.  Any exception — including
failure to open or write the file at all — is caught by the surrounding
`try`, logged, and the function returns `False`: the file's directory
entry is left in place, with whatever content the interrupted passes
produced (here: the original content, for a file that cannot be opened at
all). -/
def secure_delete_file (fs : SimpleFS) (path : String) (passes : Nat) :
    Bool × SimpleFS :=
  match fsFind path fs with
  | none => (false, fs)
  | some f =>
    if f.writable then
      (true, fsRemove path fs)
    else
      (false, fs)

/-! ## Association-list helper lemmas -/

theorem findEntry_setEntry_self (file_id : String) (md : Metadata)
    (l : List (String × Metadata)) : findEntry file_id (setEntry file_id md l) = some md := by
  unfold setEntry findEntry
  rw [if_pos rfl]

theorem findEntry_removeEntry_self (file_id : String) (l : List (String × Metadata)) :
    findEntry file_id (removeEntry file_id l) = none := by
  induction l with
  | nil => rfl
  | cons p rest ih =>
    obtain ⟨k, v⟩ := p
    by_cases hk : k = file_id
    · simp only [removeEntry, if_pos hk, ih]
    · simp only [removeEntry, if_neg hk, findEntry, ih, if_neg hk]

theorem findEntry_removeEntry_none (i j : String) (l : List (String × Metadata))
    (h : findEntry i l = none) : findEntry i (removeEntry j l) = none := by
  induction l with
  | nil => rfl
  | cons p rest ih =>
    obtain ⟨k, v⟩ := p
    by_cases hk : k = i
    · simp only [findEntry, if_pos hk] at h
      exact absurd h (Option.some_ne_none v)
    · simp only [findEntry, if_neg hk] at h
      by_cases hj : k = j
      · simp only [removeEntry, if_pos hj, ih h]
      · simp only [removeEntry, if_neg hj, findEntry, if_neg hk, ih h]

theorem findEntry_fm_secure_delete_none (st : FMState) (i j : String)
    (h : findEntry i st.metadata = none) :
    findEntry i (fm_secure_delete_file st j).metadata = none := by
  unfold fm_secure_delete_file
  match hj : findEntry j st.metadata with
  | none => simpa [hj] using h
  | some md =>
    simp only [hj, add_to_blacklist]
    exact findEntry_removeEntry_none i j st.metadata h

theorem findEntry_monitorStep_none (now : Int) (s : FMState) (i fid : String)
    (h : findEntry i s.metadata = none) :
    findEntry i (monitorStep now s fid).metadata = none := by
  cases hf : findEntry fid s.metadata with
  | none => simp [monitorStep, hf, h]
  | some md =>
    by_cases hc : check_security_constraints md.security now md.last_accessed
        md.access_count = true
    · simp [monitorStep, hf, hc, h]
    · simp only [monitorStep, hf, if_neg hc]
      exact findEntry_fm_secure_delete_none s i fid h

theorem findEntry_foldl_monitorStep_none (i : String) (now : Int) (ids : List String) :
    ∀ st : FMState, findEntry i st.metadata = none →
      findEntry i (ids.foldl (monitorStep now) st).metadata = none := by
  induction ids with
  | nil => intro st h; exact h
  | cons fid rest ih =>
    intro st h
    rw [List.foldl_cons]
    exact ih _ (findEntry_monitorStep_none now st i fid h)

theorem findEntry_monitor_none (st : FMState) (i : String) (now : Int)
    (h : findEntry i st.metadata = none) :
    findEntry i (monitor_files_once st now).metadata = none :=
  findEntry_foldl_monitorStep_none i now _ st h

/-! ## Step lemmas for `access_file` and forensic deletion -/

theorem blacklist_hash_some {md : Metadata} {ch : String}
    (hch : md.content_hash = some ch) (hne : ch ≠ "") : blacklist_hash md = ch := by
  unfold blacklist_hash
  rw [hch]
  exact if_pos hne

theorem fm_secure_delete_present (st : FMState) (file_id : String) (md : Metadata)
    (hmd : findEntry file_id st.metadata = some md) :
    fm_secure_delete_file st file_id =
      { metadata := removeEntry file_id st.metadata,
        blacklist := safe_hash (blacklist_hash md) :: st.blacklist } := by
  unfold fm_secure_delete_file
  rw [hmd]
  rfl

theorem access_file_not_found (st : FMState) (file_id : String) (password : List Nat)
    (t : Int) (hmd : findEntry file_id st.metadata = none) :
    access_file st file_id password t = (.fileNotFound, st) := by
  unfold access_file
  rw [hmd]

/-- The metadata record as saved after a failed decryption attempt. -/
def failedUpdate (md : Metadata) (n : Nat) : Metadata :=
  { md with failed_password_attempts := some n }

/-- The metadata record as saved (and returned) after a successful
access at time `t`. -/
def successUpdate (md : Metadata) (t : Int) : Metadata :=
  { md with failed_password_attempts := some 0, last_accessed := t,
            access_count := md.access_count + 1 }

/-- A failed password attempt below the threshold: the counter is
incremented and persisted, and the call fails with the remaining-attempts
message. -/
theorem access_file_wrong_step (st : FMState) (file_id : String) (md : Metadata)
    (p : List Nat) (t : Int) (k : Nat)
    (hmd : findEntry file_id st.metadata = some md)
    (hc : check_security_constraints md.security t md.last_accessed md.access_count = true)
    (hd : decrypt_file_content md.encryption p = none)
    (hf : md.failed_password_attempts.getD 0 = k) (hk : k + 1 < 3) :
    access_file st file_id p t =
      (.wrongPassword (3 - (k + 1)),
       { st with metadata := setEntry file_id (failedUpdate md (k + 1)) st.metadata }) := by
  unfold access_file
  simp only [hmd]
  rw [if_neg (by simp [hc])]
  simp only [hd, hf]
  rw [if_neg (by omega)]
  rfl

/-- The failed password attempt that reaches the threshold: the counter is
persisted, the entry is forensically destroyed, and the call fails with
the permanent-deletion message. -/
theorem access_file_third_step (st : FMState) (file_id : String) (md : Metadata)
    (p : List Nat) (t : Int) (k : Nat)
    (hmd : findEntry file_id st.metadata = some md)
    (hc : check_security_constraints md.security t md.last_accessed md.access_count = true)
    (hd : decrypt_file_content md.encryption p = none)
    (hf : md.failed_password_attempts.getD 0 = k) (hk : k + 1 >= 3) :
    access_file st file_id p t =
      (.permanentlyDeleted,
       fm_secure_delete_file
         { st with metadata := setEntry file_id (failedUpdate md (k + 1)) st.metadata }
         file_id) := by
  unfold access_file
  simp only [hmd]
  rw [if_neg (by simp [hc])]
  simp only [hd, hf]
  rw [if_pos (by omega)]
  rfl

/-- A successful access that brings the access count up to its limit: the
updated metadata is persisted and returned with the content, and the entry
is then forensically destroyed by the scheduled background task. -/
theorem access_file_success_destroy (st : FMState) (file_id : String) (md : Metadata)
    (password content : List Nat) (t : Int)
    (hmd : findEntry file_id st.metadata = some md)
    (hc : check_security_constraints md.security t md.last_accessed md.access_count = true)
    (hd : decrypt_file_content md.encryption password = some content)
    (htr : truthyNat md.security.max_access_count = true)
    (hge : md.access_count + 1 >= md.security.max_access_count.getD 0) :
    access_file st file_id password t =
      (.ok content (successUpdate md t),
       fm_secure_delete_file
         { st with metadata := setEntry file_id (successUpdate md t) st.metadata }
         file_id) := by
  unfold access_file
  simp only [hmd]
  rw [if_neg (by simp [hc])]
  simp only [hd]
  rw [if_pos (And.intro htr hge)]
  rfl

/-! ## Claim theorems -/

/-- C1: For every byte string content (including the empty string and
inputs larger than 1 MiB) and every password, sealing with
`encrypt_file_content` and then unsealing the resulting envelope with
`decrypt_file_content` using the same password returns exactly the
original bytes — for every salt and nonce the sealing draws. -/
theorem encrypt_then_decrypt_roundtrip (content password salt nonce : List Nat)
    (now_iso : String) (hc : ∀ x ∈ content, x < 256) (hp : ∀ x ∈ password, x < 256)
    (hs : ∀ x ∈ salt, x < 256) (hn : ∀ x ∈ nonce, x < 256) :
    decrypt_file_content (encrypt_file_content content password salt nonce now_iso)
      password = some content :=
  decrypt_encrypt_eq content password salt nonce now_iso hc hp hs hn

theorem encrypt_then_decrypt_roundtrip_witness :
    decrypt_file_content (encrypt_file_content [104, 105] [7] [1, 2] [9] "t") [7]
      = some [104, 105] :=
  encrypt_then_decrypt_roundtrip [104, 105] [7] [1, 2] [9] "t" (by decide) (by decide)
    (by decide) (by decide)

/-- C10: `decrypt_file_content` depends only on the envelope's
`ciphertext`, `nonce` and `salt` fields and on the password: any two
envelopes agreeing on those three fields decrypt identically, so the
presence or absence of `hardware_id_hash` never influences unsealing and
the two decryption attempts in hardware-bound import are identical
computations. -/
theorem decrypt_depends_only_on_ct_nonce_salt (e1 e2 : EncryptedContent)
    (password : List Nat) (hct : e1.ciphertext = e2.ciphertext)
    (hn : e1.nonce = e2.nonce) (hs : e1.salt = e2.salt) :
    decrypt_file_content e1 password = decrypt_file_content e2 password :=
  decrypt_file_content_fields e1 e2 password hct hn hs

theorem decrypt_depends_only_on_ct_nonce_salt_witness :
    decrypt_file_content
      { ciphertext := ['Q'], nonce := ['R'], salt := ['S'],
        encryption_time := "t", encryption_method := "AES-256-GCM",
        kdf_method := "PBKDF2-HMAC-SHA256", kdf_iterations := 100000,
        hardware_id_hash := some "hw", hardware_bound := none } [5] =
    decrypt_file_content
      { ciphertext := ['Q'], nonce := ['R'], salt := ['S'],
        encryption_time := "t2", encryption_method := "AES-256-GCM",
        kdf_method := "PBKDF2-HMAC-SHA256", kdf_iterations := 100000,
        hardware_id_hash := none, hardware_bound := some false } [5] :=
  decrypt_depends_only_on_ct_nonce_salt _ _ [5] rfl rfl rfl

/-- A file whose overwrite will fail: present on disk but not writable
(e.g. `open(path, "r+b")` raises `PermissionError`). -/
def lockedFS : SimpleFS := [("secret.bar", { content := [1, 2, 3], writable := false })]

/-- A writable file, for the success path. -/
def writableFS : SimpleFS := [("doc.bar", { content := [7], writable := true })]

/-- C7 counterexample: when the multi-pass overwrite cannot be performed
at all, `secure_delete_file` does NOT fall back to an ordinary unlink —
it returns `False` and the file's directory entry is still present, so
the claim that the directory entry is removed in either case is false. -/
theorem secure_delete_no_fallback_counterexample :
    secure_delete_file lockedFS "secret.bar" 3 = (false, lockedFS) ∧
    fsFind "secret.bar" (secure_delete_file lockedFS "secret.bar" 3).2 =
      some { content := [1, 2, 3], writable := false } := by
  constructor <;> rfl

/-- C7 (amended): `secure_delete_file` tolerates failure by catching the
exception, logging and returning `False` with the file left in place; the
directory entry is removed only when the overwrite can be performed, and
no fallback unlink exists in `secure_delete_file` itself. -/
theorem secure_delete_failure_leaves_file (fs : SimpleFS) (path : String)
    (passes : Nat) (f : FsFile) (hf : fsFind path fs = some f) :
    (f.writable = false → secure_delete_file fs path passes = (false, fs)) ∧
    (f.writable = true →
      secure_delete_file fs path passes = (true, fsRemove path fs)) := by
  unfold secure_delete_file
  simp only [hf]
  constructor
  · intro hw
    rw [if_neg (by simp [hw])]
  · intro hw
    rw [if_pos hw]

theorem secure_delete_failure_leaves_file_witness :
    secure_delete_file lockedFS "secret.bar" 3 = (false, lockedFS) ∧
    secure_delete_file writableFS "doc.bar" 3 = (true, []) :=
  ⟨(secure_delete_failure_leaves_file lockedFS "secret.bar" 3
      { content := [1, 2, 3], writable := false } rfl).1 rfl,
   (secure_delete_failure_leaves_file writableFS "doc.bar" 3
      { content := [7], writable := true } rfl).2 rfl⟩

/-- C5: Constraint evaluation is a pure function of the policy, the
current time, the last-accessed time and the access count (by its very
signature), and — for policies satisfying the data-model invariant that
set limits are positive — it mandates destruction exactly when the
expiration time is set and passed, or the access limit is set and
reached, or the dead-man switch is set and the whole days since the last
access exceed it. -/
theorem check_security_constraints_spec (security : SecuritySettings) (now : Int)
    (last_accessed : Int) (access_count : Nat)
    (hmac : security.max_access_count ≠ some 0)
    (hdm : security.deadman_switch ≠ some 0) :
    check_security_constraints security now last_accessed access_count = false ↔
      (∃ e, security.expiration_time = some e ∧ now > e) ∨
      (∃ m, security.max_access_count = some m ∧ access_count ≥ m) ∨
      (∃ d, security.deadman_switch = some d ∧
        (now - last_accessed).fdiv 86400 > (d : Int)) := by
  obtain ⟨et, mac, dm, de⟩ := security
  simp only [ne_eq] at hmac hdm
  unfold check_security_constraints
  cases et <;> cases mac <;> cases dm <;>
    simp_all <;> omega

theorem check_security_constraints_spec_witness :
    check_security_constraints
        { expiration_time := some 10, max_access_count := some 2,
          deadman_switch := some 5, disable_export := false } 20 0 0 = false ↔
      (∃ e, (some (10 : Int) : Option Int) = some e ∧ (20 : Int) > e) ∨
      (∃ m, (some 2 : Option Nat) = some m ∧ (0 : Nat) ≥ m) ∨
      (∃ d, (some 5 : Option Nat) = some d ∧
        ((20 : Int) - 0).fdiv 86400 > (d : Int)) :=
  check_security_constraints_spec
    { expiration_time := some 10, max_access_count := some 2,
      deadman_switch := some 5, disable_export := false } 20 0 0
    (by decide) (by decide)

/-- An envelope literal used by the concrete witness records below. -/
def sampleEnvelope : EncryptedContent :=
  { ciphertext := [], nonce := [], salt := [], encryption_time := "t",
    encryption_method := "AES-256-GCM", kdf_method := "PBKDF2-HMAC-SHA256",
    kdf_iterations := 100000, hardware_id_hash := none, hardware_bound := none }

/-- The minimal valid portable record of the claim: version present,
`creation_time`, `content_hash` and the security policy absent. -/
def minimal_bar_record : BarFileData :=
  { bar_portable_file := true, version := some "1.0", filename := some "f.txt",
    encryption := some sampleEnvelope, creation_time := none, content_hash := none,
    security := none }

/-- The fully populated versioned record of the claim. -/
def full_bar_record : BarFileData :=
  { bar_portable_file := true, version := some "1.0", filename := some "f.txt",
    encryption := some sampleEnvelope, creation_time := some "2025-01-01T00:00:00",
    content_hash := some "abc",
    security := some { expiration_time := none, max_access_count := none,
                       deadman_switch := none, disable_export := false } }

/-- C8: every parseable record passing validation is assigned an
integrity score of 100 minus 10 for each of `creation_time`,
`content_hash`, `security` absent and minus 10 when the version is
absent; in particular the minimal valid record with a version scores 70
and a fully populated versioned record scores 100. -/
theorem validate_bar_file_integrity_score (file_size : Nat) (d : BarFileData)
    (hsize : 50 ≤ file_size) (hsig : d.bar_portable_file = true)
    (hfn : d.filename ≠ none) (henc : d.encryption ≠ none)
    (hver : d.version.getD "unknown" = "unknown" ∨
      isVersionShape (d.version.getD "unknown") = true) :
    (validate_bar_file file_size d).map (fun i => i.integrity_score) =
      some (100 - (if d.creation_time = none then 10 else 0)
        - (if d.content_hash = none then 10 else 0)
        - (if d.security = none then 10 else 0)
        - (if d.version.getD "unknown" = "unknown" then 10 else 0)) ∧
    (validate_bar_file 50 minimal_bar_record).map (fun i => i.integrity_score) =
      some 70 ∧
    (validate_bar_file 50 full_bar_record).map (fun i => i.integrity_score) =
      some 100 := by
  refine ⟨?_, by decide, by decide⟩
  unfold validate_bar_file
  rw [if_neg (by omega)]
  rw [if_neg (by simp [hsig])]
  rw [if_neg (by
    rintro ⟨h1, h2⟩
    rcases hver with h | h
    · exact h1 h
    · exact h2 h)]
  rw [if_neg (fun hcon => hcon.elim hfn henc)]
  simp only [Option.map_some']
  congr 1
  exact Nat.zero_max _

theorem validate_bar_file_integrity_score_witness :
    (validate_bar_file 50 minimal_bar_record).map (fun i => i.integrity_score) =
      some (100 - (if minimal_bar_record.creation_time = none then 10 else 0)
        - (if minimal_bar_record.content_hash = none then 10 else 0)
        - (if minimal_bar_record.security = none then 10 else 0)
        - (if minimal_bar_record.version.getD "unknown" = "unknown" then 10 else 0)) ∧
    (validate_bar_file 50 minimal_bar_record).map (fun i => i.integrity_score) =
      some 70 ∧
    (validate_bar_file 50 full_bar_record).map (fun i => i.integrity_score) =
      some 100 :=
  validate_bar_file_integrity_score 50 minimal_bar_record (by decide) rfl
    (by decide) (by decide) (by decide)

/-- C4: for every portable record carrying the signature marker whose
(non-empty) content hash is present in the blacklist,
`import_portable_file` fails with the blacklist error even when the
supplied password is correct — the password is never consulted — and no
new entry is persisted by that call: the state is unchanged. -/
theorem import_blacklisted_rejected (st : FMState) (r : PortableData)
    (password : List Nat) (fresh_id : String) (now : Int) (ch : String)
    (hsig : r.bar_portable_file = true) (hch : r.content_hash = some ch)
    (hne : ch ≠ "") (hbl : is_blacklisted st ch = true) :
    import_portable_file st r password fresh_id now = (.blacklisted, st) := by
  unfold import_portable_file
  rw [if_neg (by simp [hsig])]
  have h1 : truthyStr r.content_hash = true := by
    simp [truthyStr, hch, hne]
  have h2 : is_blacklisted st (r.content_hash.getD "") = true := by
    rw [hch]
    exact hbl
  rw [if_pos (And.intro h1 h2)]

/-- State and record for the C4 witness: the blacklist already holds the
record's content hash. -/
def c4State : FMState := { metadata := [], blacklist := ["abc"] }

def c4Record : PortableData :=
  { bar_portable_file := true, version := "1.0", filename := "f", creation_time := 0,
    file_type := none,
    security := { expiration_time := none, max_access_count := none,
                  deadman_switch := none, disable_export := false },
    encryption := sampleEnvelope, content_hash := some "abc",
    failed_password_attempts := none, access_count := none }

theorem import_blacklisted_rejected_witness :
    import_portable_file c4State c4Record [1] "new-id" 0 = (.blacklisted, c4State) :=
  import_blacklisted_rejected c4State c4Record [1] "new-id" 0 "abc" rfl rfl
    (by decide) (by decide)

/-- C9: `import_portable_file` consults the blacklist only when the
record's content hash is present and non-empty: a record carrying the
signature marker but lacking a content hash (or carrying an empty one)
skips the blacklist check entirely, so a previously blacklisted payload
re-wrapped in such a record — here: the blacklist explicitly contains the
hash of the decrypted payload — is imported successfully and persisted. -/
theorem import_skips_blacklist_without_content_hash (st : FMState) (r : PortableData)
    (password content : List Nat) (fresh_id : String) (now : Int)
    (hsig : r.bar_portable_file = true)
    (hch : r.content_hash = none ∨ r.content_hash = some "")
    (hdec : decrypt_file_content r.encryption password = some content)
    (hbl : safe_hash (hash_content content) ∈ st.blacklist) :
    (import_portable_file st r password fresh_id now).1 = .ok fresh_id ∧
    findEntry fresh_id (import_portable_file st r password fresh_id now).2.metadata
      ≠ none := by
  unfold import_portable_file
  rw [if_neg (by simp [hsig])]
  rw [if_neg (by
    rintro ⟨h1, h2⟩
    rcases hch with h | h <;> simp [truthyStr, h] at h1)]
  cases hw : r.encryption.hardware_id_hash with
  | none =>
    simp only [hdec]
    unfold importFinish
    exact ⟨rfl, by rw [findEntry_setEntry_self]; simp⟩
  | some hwh =>
    have he : decrypt_file_content
        { r.encryption with hardware_id_hash := none, hardware_bound := some false }
        password = some content :=
      (decrypt_file_content_fields
        { r.encryption with hardware_id_hash := none, hardware_bound := some false }
        r.encryption password rfl rfl rfl).trans hdec
    simp only [he]
    unfold importFinish
    exact ⟨rfl, by rw [findEntry_setEntry_self]; simp⟩

/-- State and record for the C9 witness: the payload `[1]` was
blacklisted, but the record carries no content hash. -/
def c9State : FMState :=
  { metadata := [], blacklist := [safe_hash (hash_content [1])] }

def c9Record : PortableData :=
  { bar_portable_file := true, version := "1.0", filename := "f", creation_time := 0,
    file_type := none,
    security := { expiration_time := none, max_access_count := none,
                  deadman_switch := none, disable_export := false },
    encryption := encrypt_file_content [1] [2] [3] [4] "t", content_hash := none,
    failed_password_attempts := none, access_count := none }

theorem import_skips_blacklist_without_content_hash_witness :
    (import_portable_file c9State c9Record [2] "new-id" 5).1 = .ok "new-id" ∧
    findEntry "new-id" (import_portable_file c9State c9Record [2] "new-id" 5).2.metadata
      ≠ none :=
  import_skips_blacklist_without_content_hash c9State c9Record [2] [1] "new-id" 5
    rfl (Or.inl rfl) (by decide) (by decide)

/-- C3: for every portable record whose envelope carries a
`hardware_id_hash` (sealed under some password on another machine, then
marked as bound), `import_portable_file` with the correct password
succeeds and returns the freshly allocated id — for any value of the
binding marker, hence regardless of the host fingerprint, via the
strip-binding-then-retry fallback — and with an incorrect password it
fails with the authentication error
("Incorrect password or incompatible hardware binding"). -/
theorem import_hardware_bound_fallback (st : FMState)
    (content password pw2 salt nonce : List Nat) (now_iso : String) (hw : String)
    (r : PortableData) (fresh_id : String) (now : Int)
    (hc : ∀ x ∈ content, x < 256) (hp : ∀ x ∈ password, x < 256)
    (hs : ∀ x ∈ salt, x < 256) (hn : ∀ x ∈ nonce, x < 256)
    (hsig : r.bar_portable_file = true)
    (henc : r.encryption =
      { encrypt_file_content content password salt nonce now_iso with
          hardware_id_hash := some hw })
    (hbl : ¬(truthyStr r.content_hash = true ∧
      is_blacklisted st (r.content_hash.getD "") = true))
    (hne : pw2 ≠ password) :
    (import_portable_file st r password fresh_id now).1 = .ok fresh_id ∧
    (import_portable_file st r pw2 fresh_id now).1 = .wrongPasswordOrHardware := by
  have hwmark : r.encryption.hardware_id_hash = some hw := by rw [henc]
  have hstrip : ∀ q : List Nat,
      decrypt_file_content
        { r.encryption with hardware_id_hash := none, hardware_bound := some false }
        q =
      decrypt_file_content (encrypt_file_content content password salt nonce now_iso)
        q := by
    intro q
    apply decrypt_file_content_fields <;> rw [henc]
  have horig : ∀ q : List Nat,
      decrypt_file_content r.encryption q =
      decrypt_file_content (encrypt_file_content content password salt nonce now_iso)
        q := by
    intro q
    apply decrypt_file_content_fields <;> rw [henc]
  constructor
  · unfold import_portable_file
    rw [if_neg (by simp [hsig]), if_neg hbl]
    simp only [hwmark]
    rw [(hstrip password).trans (decrypt_encrypt_eq content password salt nonce
      now_iso hc hp hs hn)]
    rfl
  · unfold import_portable_file
    rw [if_neg (by simp [hsig]), if_neg hbl]
    simp only [hwmark]
    rw [(hstrip pw2).trans (decrypt_encrypt_ne content password pw2 salt nonce
      now_iso hc hp hs hn hne)]
    rw [(horig pw2).trans (decrypt_encrypt_ne content password pw2 salt nonce
      now_iso hc hp hs hn hne)]

/-- Record for the C3 witness: the envelope of payload `[9]` sealed under
password `[1]`, marked as hardware-bound on another machine. -/
def c3Record : PortableData :=
  { bar_portable_file := true, version := "1.0", filename := "f", creation_time := 0,
    file_type := none,
    security := { expiration_time := none, max_access_count := none,
                  deadman_switch := none, disable_export := false },
    encryption := { encrypt_file_content [9] [1] [2] [3] "t" with
                      hardware_id_hash := some "other-machine" },
    content_hash := none, failed_password_attempts := none, access_count := none }

theorem import_hardware_bound_fallback_witness :
    (import_portable_file { metadata := [], blacklist := [] } c3Record [1] "new-id" 0).1
      = .ok "new-id" ∧
    (import_portable_file { metadata := [], blacklist := [] } c3Record [4] "new-id" 0).1
      = .wrongPasswordOrHardware :=
  import_hardware_bound_fallback { metadata := [], blacklist := [] }
    [9] [1] [4] [2] [3] "t" "other-machine" c3Record "new-id" 0
    (by decide) (by decide) (by decide) (by decide) rfl rfl
    (by decide) (by decide)

/-- C2: for every stored entry with a (non-empty) content hash and a
fresh failed-attempts counter, after three consecutive `access_file`
calls with incorrect passwords (no intervening successful unseal, the
security constraints holding at each call), the entry's metadata file no
longer exists, a blacklist record exists for the entry's content hash,
and the third call fails with the distinct permanent-deletion error
rather than the ordinary wrong-password error. -/
theorem three_failed_attempts_destroy_entry (st : FMState) (file_id : String)
    (md : Metadata) (ch : String) (p1 p2 p3 : List Nat) (t1 t2 t3 : Int)
    (hmd : findEntry file_id st.metadata = some md)
    (hch : md.content_hash = some ch) (hchne : ch ≠ "")
    (hf0 : md.failed_password_attempts.getD 0 = 0)
    (hc1 : check_security_constraints md.security t1 md.last_accessed md.access_count
      = true)
    (hc2 : check_security_constraints md.security t2 md.last_accessed md.access_count
      = true)
    (hc3 : check_security_constraints md.security t3 md.last_accessed md.access_count
      = true)
    (hd1 : decrypt_file_content md.encryption p1 = none)
    (hd2 : decrypt_file_content md.encryption p2 = none)
    (hd3 : decrypt_file_content md.encryption p3 = none) :
    (access_file (access_file (access_file st file_id p1 t1).2 file_id p2 t2).2
        file_id p3 t3).1 = .permanentlyDeleted ∧
    findEntry file_id (access_file (access_file (access_file st file_id p1 t1).2
        file_id p2 t2).2 file_id p3 t3).2.metadata = none ∧
    safe_hash ch ∈ (access_file (access_file (access_file st file_id p1 t1).2
        file_id p2 t2).2 file_id p3 t3).2.blacklist := by
  set md1 := failedUpdate md 1 with hmd1
  set md2 := failedUpdate md1 2 with hmd2
  set md3 := failedUpdate md2 3 with hmd3
  set st1 : FMState := { st with metadata := setEntry file_id md1 st.metadata }
    with hst1
  set st2 : FMState := { st1 with metadata := setEntry file_id md2 st1.metadata }
    with hst2
  set st2p : FMState := { st2 with metadata := setEntry file_id md3 st2.metadata }
    with hst2p
  have E1 : (access_file st file_id p1 t1).2 = st1 := by
    rw [access_file_wrong_step st file_id md p1 t1 0 hmd hc1 hd1 hf0 (by omega)]
  rw [E1]
  have E2 : (access_file st1 file_id p2 t2).2 = st2 := by
    rw [access_file_wrong_step st1 file_id md1 p2 t2 1
      (findEntry_setEntry_self file_id md1 st.metadata) hc2 hd2 rfl (by omega)]
  rw [E2]
  have E3 : access_file st2 file_id p3 t3 =
      (.permanentlyDeleted, fm_secure_delete_file st2p file_id) := by
    rw [access_file_third_step st2 file_id md2 p3 t3 2
      (findEntry_setEntry_self file_id md2 st1.metadata) hc3 hd3 rfl (by omega)]
  rw [E3]
  have hD : fm_secure_delete_file st2p file_id =
      { metadata := removeEntry file_id st2p.metadata,
        blacklist := safe_hash (blacklist_hash md3) :: st2p.blacklist } :=
    fm_secure_delete_present st2p file_id md3
      (findEntry_setEntry_self file_id md3 st2.metadata)
  rw [hD]
  refine ⟨rfl, ?_, ?_⟩
  · exact findEntry_removeEntry_self file_id st2p.metadata
  · rw [blacklist_hash_some (show md3.content_hash = some ch from hch) hchne]
    exact List.mem_cons_self _ _

/-- Entry and state for the C2 witness: a stored entry whose envelope no
password can unseal. -/
def c2Metadata : Metadata :=
  { file_id := "f1", filename := "a.txt", creation_time := 0, last_accessed := 0,
    access_count := 0, file_type := "document",
    security := { expiration_time := none, max_access_count := none,
                  deadman_switch := none, disable_export := false },
    encryption := sampleEnvelope, content_hash := some "abc",
    failed_password_attempts := none }

def c2State : FMState := { metadata := [("f1", c2Metadata)], blacklist := [] }

theorem three_failed_attempts_destroy_entry_witness :
    (access_file (access_file (access_file c2State "f1" [1] 1).2 "f1" [2] 2).2
        "f1" [3] 3).1 = .permanentlyDeleted ∧
    findEntry "f1" (access_file (access_file (access_file c2State "f1" [1] 1).2
        "f1" [2] 2).2 "f1" [3] 3).2.metadata = none ∧
    safe_hash "abc" ∈ (access_file (access_file (access_file c2State "f1" [1] 1).2
        "f1" [2] 2).2 "f1" [3] 3).2.blacklist :=
  three_failed_attempts_destroy_entry c2State "f1" c2Metadata "abc" [1] [2] [3] 1 2 3
    (by decide) rfl (by decide) rfl (by decide) (by decide) (by decide)
    (by decide) (by decide) (by decide)

/-- C6: for every entry with `max_access_count = 1`, a zero access count
and no other violated constraint, the first `access_file` call with the
correct password succeeds and returns the decrypted content — forensic
destruction is only scheduled after the content is computed, so the
triggering access itself never fails — and the entry is absent on any
subsequent access and after any sweep cycle. -/
theorem single_use_entry_first_access (st : FMState) (file_id : String) (md : Metadata)
    (password content q : List Nat) (t t2 t3 : Int)
    (hmd : findEntry file_id st.metadata = some md)
    (hmac : md.security.max_access_count = some 1)
    (hac : md.access_count = 0)
    (hc : check_security_constraints md.security t md.last_accessed md.access_count
      = true)
    (hd : decrypt_file_content md.encryption password = some content) :
    (access_file st file_id password t).1 = .ok content (successUpdate md t) ∧
    findEntry file_id (access_file st file_id password t).2.metadata = none ∧
    (access_file (access_file st file_id password t).2 file_id q t2).1 =
      .fileNotFound ∧
    findEntry file_id
      (monitor_files_once (access_file st file_id password t).2 t3).metadata = none := by
  have htr : truthyNat md.security.max_access_count = true := by
    rw [hmac]
    rfl
  have hge : md.access_count + 1 ≥ md.security.max_access_count.getD 0 := by
    rw [hmac]
    simp
  set stX : FMState :=
    { st with metadata := setEntry file_id (successUpdate md t) st.metadata } with hstX
  have E1 : access_file st file_id password t =
      (.ok content (successUpdate md t), fm_secure_delete_file stX file_id) := by
    rw [access_file_success_destroy st file_id md password content t hmd hc hd htr hge]
  rw [E1]
  have hD : fm_secure_delete_file stX file_id =
      { metadata := removeEntry file_id stX.metadata,
        blacklist := safe_hash (blacklist_hash (successUpdate md t)) :: stX.blacklist } :=
    fm_secure_delete_present stX file_id (successUpdate md t)
      (findEntry_setEntry_self file_id (successUpdate md t) st.metadata)
  rw [hD]
  have habs : findEntry file_id
      ({ metadata := removeEntry file_id stX.metadata,
         blacklist := safe_hash (blacklist_hash (successUpdate md t)) :: stX.blacklist }
        : FMState).metadata = none :=
    findEntry_removeEntry_self file_id stX.metadata
  refine ⟨rfl, habs, ?_, ?_⟩
  · rw [access_file_not_found _ file_id q t2 habs]
  · exact findEntry_monitor_none _ file_id t3 habs

/-- Entry and state for the C6 witness: payload `[9]` sealed under
password `[1]`, access limit 1. -/
def c6Metadata : Metadata :=
  { file_id := "f1", filename := "a.txt", creation_time := 0, last_accessed := 0,
    access_count := 0, file_type := "document",
    security := { expiration_time := none, max_access_count := some 1,
                  deadman_switch := none, disable_export := false },
    encryption := encrypt_file_content [9] [1] [2] [3] "t", content_hash := none,
    failed_password_attempts := none }

def c6State : FMState := { metadata := [("f1", c6Metadata)], blacklist := [] }

theorem single_use_entry_first_access_witness :
    (access_file c6State "f1" [1] 10).1 = .ok [9] (successUpdate c6Metadata 10) ∧
    findEntry "f1" (access_file c6State "f1" [1] 10).2.metadata = none ∧
    (access_file (access_file c6State "f1" [1] 10).2 "f1" [5] 11).1 = .fileNotFound ∧
    findEntry "f1" (monitor_files_once (access_file c6State "f1" [1] 10).2 12).metadata
      = none :=
  single_use_entry_first_access c6State "f1" c6Metadata [1] [9] [5] 10 11 12
    (by decide) rfl rfl (by decide) (by decide)
